import Mathlib

/-!
Shallow embedding of the worldcup-squad-tool rating engine
(src/src/analysis/{manager_assessment,team_rating,home_advantage,power_ranking}.py
and the record types of src/src/models/) over exact rational arithmetic.

Python floats are modelled as `ℚ` (exact real arithmetic); `round(x, n)`
is modelled by round-half-to-even on `x * 10^n` (Python's rounding mode).
The transcendental library functions (`math.exp`, `math.log`, `math.log1p`)
are passed in as explicit function parameters, so every statement below is
quantified over them; the geometric-mean normalization inside
`fit_bradley_terry` (an `n`-th root) is characterized relationally by the
equation `G ^ n = product`.  Quantities that depend on the wall clock
(`date.today()`) are fixed at the current year 2026, matching the constants
hard-coded in the source.
-/

namespace WorldCup

/-- Round-half-to-even on rationals (Python's `round` to 0 digits):
nearest integer, ties to the even integer. -/
def rhe (x : ℚ) : ℤ :=
  if x - ⌊x⌋ < 1/2 then ⌊x⌋
  else if 1/2 < x - ⌊x⌋ then ⌊x⌋ + 1
  else if Even ⌊x⌋ then ⌊x⌋ else ⌊x⌋ + 1

/-- Python's `round(x, n)` on exact rationals. -/
def pyRound (n : ℕ) (x : ℚ) : ℚ :=
  (rhe (x * 10 ^ n) : ℚ) / 10 ^ n

/-! ## Data model (src/src/models/) -/

/-- `src/src/models/manager.py`, `CareerEntry`. -/
structure CareerEntry where
  team : String
  role : String
  start_year : ℤ
  end_year : Option ℤ
  level : String
deriving DecidableEq

/-- `src/src/models/manager.py`, `Honour`. -/
structure Honour where
  title : String
  year : ℤ
  level : String
  with_team : String
deriving DecidableEq

/-- `src/src/models/manager.py`, `TournamentResult`. -/
structure TournamentResult where
  tournament : String
  result : String
  year : ℤ
deriving DecidableEq

/-- `src/src/models/manager.py`, `Manager`.  The date-derived property
`tenure_years` (computed in the source from `tenure_start` and
`date.today()` via calendar arithmetic) is carried as a field, since it
depends on the wall clock; `date_of_birth` (only used for display) is
omitted. -/
structure Manager where
  team_name : String
  name : String
  nationality : String
  tenure_years : ℚ
  fifa_ranking_at_appointment : ℤ
  career_history : List CareerEntry
  honours : List Honour
  recent_tournament_results : List TournamentResult
deriving DecidableEq

/-- Python `x or 2026` on an optional year (`None` and `0` are falsy). -/
def orYear (y : Option ℤ) : ℤ :=
  match y with
  | none => 2026
  | some v => if v = 0 then 2026 else v

/-- `Manager.total_years_managing` (with `date.today().year = 2026`). -/
def total_years_managing (m : Manager) : ℚ :=
  (m.career_history.map (fun e => max 0 ((orYear e.end_year - e.start_year : ℤ) : ℚ))).sum

/-- `Manager.clubs_managed_count`. -/
def clubs_managed_count (m : Manager) : ℕ :=
  ((m.career_history.filter
      (fun e => e.role = "Head Coach" ∧ e.level.startsWith "club")).map
    (fun e => e.team)).dedup.length

/-! ## Manager scoring engine (src/src/analysis/manager_assessment.py) -/

/-- `HONOUR_POINTS` with the `.get(level, 5)` default. -/
def honourPoints (level : String) : ℚ :=
  if level = "world_cup" then 25
  else if level = "continental" then 15
  else if level = "champions_league" then 18
  else if level = "league" then 10
  else if level = "cup" then 5
  else 5

/-- `LEVEL_WEIGHT` with the `.get(level, 1.0)` default. -/
def levelWeight (level : String) : ℚ :=
  if level = "international_senior" then 3
  else if level = "club_top" then 5/2
  else if level = "club_mid" then 3/2
  else if level = "club_lower" then 1
  else if level = "youth" then 4/5
  else 1

/-- `RESULT_SCORES` with the `.get(result, 0)` default. -/
def resultScore (result : String) : ℚ :=
  if result = "Winner" then 10
  else if result = "Runner-up" then 7
  else if result = "Third place" then 6
  else if result = "Semi-finals" then 5
  else if result = "Quarter-finals" then 3
  else if result = "Round of 16" then 1
  else if result = "Group Stage" then -2
  else 0

/-- `ManagerAssessment`: the assessed manager plus the team's current
FIFA ranking (the two constructor arguments of the Python dataclass). -/
structure ManagerAssessment where
  manager : Manager
  current_fifa_ranking : ℤ
deriving DecidableEq

/-- `ManagerAssessment.experience_score`. -/
def experience_score (m : Manager) : ℚ :=
  let years := total_years_managing m
  let roles : ℚ := m.career_history.length
  let years_pts := min 50 (years * (5/2))
  let roles_pts := min 25 (roles * (25/8))
  let caliber_raw := (m.career_history.map (fun e =>
    levelWeight e.level * min (max 1 ((orYear e.end_year - e.start_year : ℤ) : ℚ)) 5)).sum
  let caliber_pts := min 25 (caliber_raw * (3/2))
  min 100 (years_pts + roles_pts + caliber_pts)

/-- The accumulation loop of `ManagerAssessment.honours_score`: `counts`
carries the per-level tally seen so far (`level_counts` in the source);
the k-th honour of a level contributes `base * 0.6^(k-1)`. -/
def honoursRawAux : List Honour → (String → ℕ) → ℚ
  | [], _ => 0
  | h :: rest, counts =>
    honourPoints h.level * (3/5) ^ counts h.level +
      honoursRawAux rest (fun l => if l = h.level then counts l + 1 else counts l)

/-- `ManagerAssessment.honours_score`. -/
def honours_score (m : Manager) : ℚ :=
  if m.honours = [] then 0
  else min 100 (honoursRawAux m.honours (fun _ => 0) * (100/60))

/-- `level_ranks` table inside `ManagerAssessment.club_achievement_score`,
with the `.get(level, 0)` default. -/
def levelRank (level : String) : ℚ :=
  if level = "club_top" then 40
  else if level = "international_senior" then 35
  else if level = "club_mid" then 20
  else if level = "club_lower" then 10
  else if level = "youth" then 5
  else 0

/-- `ManagerAssessment.club_achievement_score`. -/
def club_achievement_score (m : Manager) : ℚ :=
  if m.career_history = [] then 0
  else
    let highest := (m.career_history.map (fun e => levelRank e.level)).foldl max 0
    let breadth_pts := min 30 ((clubs_managed_count m : ℚ) * 6)
    let intl_roles : ℚ :=
      (m.career_history.filter (fun e => e.level = "international_senior")).length
    let intl_pts := min 30 (intl_roles * 15)
    min 100 (highest + breadth_pts + intl_pts)

/-- `ManagerAssessment.tenure_score`; `texp` stands for `math.exp`. -/
def tenure_score (texp : ℚ → ℚ) (m : Manager) : ℚ :=
  100 * texp (-((m.tenure_years - 4) ^ 2) / (2 * (5/2) ^ 2))

/-- `ManagerAssessment.achievement_delta_score`. -/
def achievement_delta_score (a : ManagerAssessment) : ℚ :=
  let ranking_delta : ℚ :=
    ((a.manager.fifa_ranking_at_appointment - a.current_fifa_ranking : ℤ) : ℚ)
  let ranking_pts := max (-30) (min 30 (ranking_delta * (3/2)))
  let tournament_raw := (a.manager.recent_tournament_results.map (fun r =>
    resultScore r.result * max (1/2) (1 - ((2026 - r.year : ℤ) : ℚ) * (15/100)))).sum
  let tournament_pts := max (-20) (min 20 tournament_raw)
  max (-50) (min 50 (ranking_pts + tournament_pts))

/-- `ManagerAssessment.composite_score`. -/
def composite_score (texp : ℚ → ℚ) (a : ManagerAssessment) : ℚ :=
  let delta_normalized := achievement_delta_score a + 50
  let raw :=
    experience_score a.manager * (20/100)
    + honours_score a.manager * (25/100)
    + club_achievement_score a.manager * (15/100)
    + tenure_score texp a.manager * (10/100)
    + delta_normalized * (30/100)
  pyRound 1 (max 0 (min 100 raw))

/-- `ManagerAssessment.rating_multiplier`. -/
def rating_multiplier (texp : ℚ → ℚ) (a : ManagerAssessment) : ℚ :=
  pyRound 3 (85/100 + composite_score texp a / 100 * (30/100))

/-! ## Team and player records (src/src/models/{player,team}.py) -/

/-- `src/src/models/player.py`, `Player` (display-only helpers omitted). -/
structure Player where
  name : String
  position : String
  position_detail : String
  age : ℤ
  club : String
  nationality : String
  market_value : ℚ
  appearances : ℤ := 0
  goals : ℤ := 0
  assists : ℤ := 0
  transfermarkt_id : String := ""
  games_last_30 : ℤ := 0
  games_last_60 : ℤ := 0
deriving DecidableEq

/-- `src/src/models/team.py`, `Team`. -/
structure Team where
  name : String
  country_code : String
  confederation : String
  fifa_ranking : ℤ
  transfermarkt_id : String
  squad : List Player := []
  manager : Option Manager := none
deriving DecidableEq

/-- `Team.total_market_value`. -/
def total_market_value (t : Team) : ℚ :=
  (t.squad.map (fun p => p.market_value)).sum

/-- `Squad.average_caps` (src/src/models/squad.py). -/
def squad_average_caps (ps : List Player) : ℚ :=
  if ps = [] then 0
  else (ps.map (fun p => (p.appearances : ℚ))).sum / ps.length

/-- One entry of `Squad.position_breakdown`. -/
def position_count (ps : List Player) (pos : String) : ℕ :=
  (ps.filter (fun p => p.position = pos)).length

/-! ## Team rating composer (src/src/analysis/team_rating.py) -/

/-- Python `max` over a nonempty list (first element then fold). -/
def listMax1 : ℚ → List ℚ → ℚ
  | x, [] => x
  | x, y :: ys => listMax1 (max x y) ys

/-- `_value_score`; `qlog1p` stands for `math.log1p`. -/
def valueScore (qlog1p : ℚ → ℚ) (team_value : ℚ) (all_values : List ℚ) : ℚ :=
  match all_values with
  | [] => 50
  | v :: vs =>
    let max_val := listMax1 v vs
    if max_val ≤ 0 then 50
    else
      let log_val := qlog1p team_value
      let log_max := qlog1p max_val
      if log_max ≤ 0 then 50
      else pyRound 1 (log_val / log_max * 100)

/-- `_caps_score`. -/
def capsScore (avg_caps : ℚ) : ℚ :=
  min 100 (avg_caps * (5/2))

/-- `_balance_score`. -/
def balanceScore (ps : List Player) : ℚ :=
  if ps = [] then 50
  else
    let size : ℚ := ps.length
    let scale := size / 26
    let pen := fun (pos : String) (ideal : ℚ) =>
      |(position_count ps pos : ℚ) - ideal * scale| / max 1 (ideal * scale) * 25
    let penalty := pen "GK" 3 + pen "DF" 8 + pen "MF" 8 + pen "FW" 7
    max 0 (min 100 (100 - penalty))

/-- `calculate_base_team_rating`. -/
def calculate_base_team_rating (qlog1p : ℚ → ℚ) (team : Team) (all_teams : List Team)
    (power_rating : Option ℚ) : ℚ :=
  let all_values := all_teams.map total_market_value
  let v_score := valueScore qlog1p (total_market_value team) all_values
  let c_score := capsScore (squad_average_caps team.squad)
  let b_score := balanceScore team.squad
  let base :=
    match power_rating with
    | some p => v_score * (35/100) + c_score * (20/100) + b_score * (15/100) + p * (30/100)
    | none => v_score * (50/100) + c_score * (30/100) + b_score * (20/100)
  pyRound 1 (max 0 (min 100 base))

/-! ## Home advantage model (src/src/analysis/home_advantage.py) -/

/-- `HOST_NATIONS`. -/
def HOST_NATIONS : List String := ["United States", "Canada", "Mexico"]

/-- `HomeAdvantageConfig`. -/
structure HomeAdvantageConfig where
  base_advantage : ℚ := 44/1000
  enabled : Bool := true
deriving DecidableEq

/-- `calculate_home_advantage_multiplier`. -/
def calculate_home_advantage_multiplier (team_name : String) (base_rating : ℚ)
    (config : Option HomeAdvantageConfig) : ℚ :=
  match config with
  | none => 1
  | some c =>
    if ¬ c.enabled then 1
    else if team_name ∉ HOST_NATIONS then 1
    else
      let scale :=
        if 70 ≤ base_rating then 1
        else if 55 ≤ base_rating then 7/10 + (base_rating - 55) * ((3/10) / 15)
        else if 40 ≤ base_rating then 4/10 + (base_rating - 40) * ((3/10) / 15)
        else 3/10
      1 + c.base_advantage * scale

/-- `calculate_overall_rating`. -/
def calculate_overall_rating (qlog1p texp : ℚ → ℚ) (team : Team) (all_teams : List Team)
    (assessment : Option ManagerAssessment) (home_config : Option HomeAdvantageConfig)
    (power_rating : Option ℚ) : ℚ :=
  let base := calculate_base_team_rating qlog1p team all_teams power_rating
  let base1 :=
    match assessment with
    | some a => base * rating_multiplier texp a
    | none => base
  let base2 := base1 * calculate_home_advantage_multiplier team.name base1 home_config
  pyRound 1 (min 100 base2)

/-! ## Power ranking engine (src/src/analysis/power_ranking.py)

`fit_bradley_terry` mixes rational arithmetic with one genuinely real
operation: the normalization factor `exp(mean(log(max(λ,1e-10))))`, the
geometric mean of the clamped strengths.  The iteration is therefore
modelled over an arbitrary `LinearOrderedField` (read `F = ℝ`), with the
geometric mean characterized by its defining equation
`G ^ n = ∏ max(λ, 1e-10)`, `G > 0`, and the sweep-then-normalize loop as
a step relation.  The largest connected component computed by
`_find_connected_component` is taken as a parameter `conn` (its choice
depends on Python set-iteration order when components tie in size); the
theorems below hold for every choice of `conn`. -/

/-- `src/src/scraper/oddsportal.py`, `MatchOdds`. -/
structure MatchOdds where
  home_team : String
  away_team : String
  date : String
  competition : String
  home_odds : ℚ
  draw_odds : ℚ
  away_odds : ℚ
  home_score : Option ℤ := none
  away_score : Option ℤ := none
deriving DecidableEq

/-- One pairwise observation handed to `fit_bradley_terry` (the dicts
built in `compute_power_rankings`). -/
structure BTMatch (F : Type) where
  team_a : String
  team_b : String
  prob_a : F
  weight : F
deriving DecidableEq

/-- `decimal_odds_to_implied_probs`. -/
def decimal_odds_to_implied_probs (home_odds draw_odds away_odds : ℚ) : ℚ × ℚ × ℚ :=
  let raw_home := 1 / home_odds
  let raw_draw := 1 / draw_odds
  let raw_away := 1 / away_odds
  let total := raw_home + raw_draw + raw_away
  (raw_home / total, raw_draw / total, raw_away / total)

/-- `adjust_for_home_advantage` (argument order as in the source:
home win, away win, draw).  `HOME_ADVANTAGE_PROB = 0.07`. -/
def adjust_for_home_advantage (home_prob away_prob draw_prob : ℚ) : ℚ × ℚ :=
  let neutral_home := max (5/100) (home_prob - 7/100)
  let neutral_away := away_prob + (7/100) * (1/2)
  let neutral_draw := draw_prob + (7/100) * (1/2)
  let total_decisive := neutral_home + neutral_away
  if total_decisive ≤ 0 then (1/2, 1/2)
  else (neutral_home / total_decisive, neutral_away / total_decisive)

/-- `_score_to_result`. -/
def scoreToResult (home_score away_score : Option ℤ) : Option ℚ :=
  match home_score, away_score with
  | some h, some a => if h > a then some 1 else if h < a then some 0 else some (1/2)
  | _, _ => none

/-- `COMPETITION_WEIGHTS` with the `.get(competition, 0.9)` default. -/
def competitionWeight (c : String) : ℚ :=
  if c = "world_cup_2022" then 13/10
  else if c = "nations_league" then 12/10
  else if c = "copa_america_2024" then 13/10
  else if c = "afcon_2024" then 11/10
  else if c = "afcon_2023" then 11/10
  else if c = "asian_cup" then 1
  else 9/10

/-- Steps 1–3 of `compute_power_rankings`: odds sanity filter, implied
probabilities, home-advantage removal, result blending
(`RESULT_WEIGHT = 0.6`), clamping, competition weight. -/
def validMatches (match_odds_list : List MatchOdds) : List (BTMatch ℚ) :=
  match_odds_list.filterMap (fun m =>
    if m.home_odds ≤ 1 ∨ m.draw_odds ≤ 1 ∨ m.away_odds ≤ 1 then none
    else
      let probs := decimal_odds_to_implied_probs m.home_odds m.draw_odds m.away_odds
      let adjusted := adjust_for_home_advantage probs.1 probs.2.2 probs.2.1
      let odds_prob_a := adjusted.1
      let effective_prob_a :=
        match scoreToResult m.home_score m.away_score with
        | some result_a => (3/5) * result_a + (1 - 3/5) * odds_prob_a
        | none => odds_prob_a
      let clamped := max (5/100) (min (95/100) effective_prob_a)
      some ⟨m.home_team, m.away_team, clamped, competitionWeight m.competition⟩)

/-- `team_match_counts` of `compute_power_rankings`, evaluated at one
team (a self-match counts twice, as both increments hit the same key). -/
def teamMatchCount (bt : List (BTMatch ℚ)) (t : String) : ℕ :=
  (bt.map (fun m =>
    (if m.team_a = t then 1 else 0) + (if m.team_b = t then 1 else 0))).sum

/-- `PowerRanking` dataclass. -/
structure PowerRanking where
  team : String
  rating : ℚ
  lambda_param : ℚ
  matches_used : ℕ
deriving DecidableEq

/-- Python `min` over a nonempty list (first element then fold). -/
def listMin1 : ℚ → List ℚ → ℚ
  | x, [] => x
  | x, y :: ys => listMin1 (min x y) ys

/-- `_lambda_to_rating`; `qlog` stands for `math.log`, the dict is an
association list. -/
def lambdaToRating (qlog : ℚ → ℚ) (lam : List (String × ℚ)) : List (String × ℚ) :=
  match lam with
  | [] => []
  | p :: ps =>
    let logLam := (p :: ps).map (fun q => (q.1, qlog (max q.2 (1/10^10))))
    let v0 := qlog (max p.2 (1/10^10))
    let rest := ps.map (fun q => qlog (max q.2 (1/10^10)))
    let min_log := listMin1 v0 rest
    let max_log := listMax1 v0 rest
    let spread := max_log - min_log
    if spread ≤ 0 then (p :: ps).map (fun q => (q.1, 50))
    else logLam.map (fun q => (q.1, pyRound 1 (10 + (q.2 - min_log) / spread * 85)))

/-- `compute_power_rankings`.  The Bradley–Terry stage is a real-valued
fixpoint iteration (see the relational model below), so it enters as a
function parameter `fit`; the claims proved about this definition hold
for every `fit` whose result keys come from the match data, which covers
the relation's every resolution. -/
def compute_power_rankings (fit : List (BTMatch ℚ) → List (String × ℚ)) (qlog : ℚ → ℚ)
    (match_odds_list : List MatchOdds) (wc_team_names : List String) :
    List (String × PowerRanking) :=
  let bt := validMatches match_odds_list
  if bt = [] then []
  else
    let lam := fit bt
    let ratings := lambdaToRating qlog lam
    let base := ratings.filterMap (fun q =>
      if wc_team_names ≠ [] ∧ q.1 ∉ wc_team_names then none
      else some (q.1, PowerRanking.mk q.1 q.2 ((lam.lookup q.1).getD 0) (teamMatchCount bt q.1)))
    let defaults :=
      if wc_team_names ≠ [] then
        (wc_team_names.filter (fun t => decide (t ∉ base.map Prod.fst))).map
          (fun t => (t, PowerRanking.mk t 25 0 0))
      else []
    base ++ defaults

section BradleyTerry

variable {F : Type} [LinearOrderedField F]

/-- Numerator contribution of one match to one team's update
(`numerator += prob_win * weight`); a match appears once in
`team_matches[t]` per endpoint equal to `t`, and each appearance is
resolved by the `team_a == team` test first, as in the source. -/
def btNum (t : String) (m : BTMatch F) : F :=
  let occ := if m.team_a = t then m.prob_a * m.weight else (1 - m.prob_a) * m.weight
  (if m.team_a = t then occ else 0) + (if m.team_b = t then occ else 0)

/-- Denominator contribution of one match to one team's update
(`denominator += weight * lam[opponent] / (lam[team] + lam[opponent])`). -/
def btDen (lam : String → F) (t : String) (m : BTMatch F) : F :=
  let occ :=
    if m.team_a = t then m.weight * lam m.team_b / (lam t + lam m.team_b)
    else m.weight * lam m.team_a / (lam t + lam m.team_a)
  (if m.team_a = t then occ else 0) + (if m.team_b = t then occ else 0)

/-- The matches kept for the fit: both endpoints inside the connected
component (`team_matches` construction). -/
def btFilter (conn : Finset String) (ms : List (BTMatch F)) : List (BTMatch F) :=
  ms.filter (fun m => decide (m.team_a ∈ conn ∧ m.team_b ∈ conn))

/-- One damped update of one team inside an iteration sweep of
`fit_bradley_terry` (`prior_strength` default 2.0, `damping` default 0.5). -/
def btSweep (prior damping : F) (ms : List (BTMatch F)) (conn : Finset String)
    (lam : String → F) (t : String) : F :=
  let relevant := btFilter conn ms
  let numerator := prior * (1/2) + (relevant.map (fun m => btNum t m)).sum
  let denominator := prior * (1/2) + (relevant.map (fun m => btDen lam t m)).sum
  if 0 < denominator then damping * (numerator / denominator) + (1 - damping) * lam t
  else lam t

/-- `G` is the normalization factor of the source,
`exp(mean(log(max(v,1e-10))))`: the positive solution of
`G ^ n = ∏ max(v, 1e-10)` over the component. -/
def isGeoMean (conn : Finset String) (v : String → F) (G : F) : Prop :=
  0 < G ∧ G ^ conn.card = ∏ t in conn, max (v t) (1/10^10)

/-- The division by `norm_factor` (the `norm_factor > 0` branch always
applies, since `G > 0`). -/
def btNormalize (G : F) (v : String → F) : String → F :=
  fun t => v t / G

/-- One full iteration of `fit_bradley_terry`: sweep every team, then
normalize by the geometric mean of the clamped new strengths. -/
def btStep (prior damping : F) (ms : List (BTMatch F)) (conn : Finset String)
    (lam lam' : String → F) : Prop :=
  ∃ G, isGeoMean conn (btSweep prior damping ms conn lam) G ∧
    lam' = btNormalize G (btSweep prior damping ms conn lam)

/-- States of the strength dict reachable inside `fit_bradley_terry`:
the all-ones initialization followed by any number of iterations (the
convergence test only decides how many iterations run). -/
inductive btReaches (prior damping : F) (ms : List (BTMatch F)) (conn : Finset String) :
    (String → F) → Prop
  | init : btReaches prior damping ms conn (fun _ => 1)
  | step {lam lam' : String → F} : btReaches prior damping ms conn lam →
      btStep prior damping ms conn lam lam' → btReaches prior damping ms conn lam'

/-- The dict returned by `fit_bradley_terry`: the fitted value on the
connected component, the fixed default `0.1` on the disconnected teams. -/
def btResult (conn teams : Finset String) (lam : String → F) : String → Option F :=
  fun t =>
    if t ∈ conn then some (lam t)
    else if t ∈ teams then some (1/10)
    else none

/-- Well-formed pairwise data: `prob_a` is a probability and the
competition weight is non-negative (every weight the pipeline produces
is between 0.9 and 1.3). -/
def wfMatches (ms : List (BTMatch F)) : Prop :=
  ∀ m ∈ ms, 0 ≤ m.prob_a ∧ m.prob_a ≤ 1 ∧ 0 ≤ m.weight

end BradleyTerry

/-! ## Definitions transcribing the spec's wording, for comparison with
the source-derived definitions above -/

/-- The strength-dependent scale factor applied to a host nation's base
advantage, as both spec and claim describe it (identical to the inline
`scale` computation of `calculate_home_advantage_multiplier`). -/
def hostScale (base_rating : ℚ) : ℚ :=
  if 70 ≤ base_rating then 1
  else if 55 ≤ base_rating then 7/10 + (base_rating - 55) * ((3/10) / 15)
  else if 40 ≤ base_rating then 4/10 + (base_rating - 40) * ((3/10) / 15)
  else 3/10

/-- `adjust_for_home_advantage` as the claim words it: half of the mass
actually removed from the home-win probability (which is less than 0.07
when the 0.05 floor binds) is reassigned to each of away and draw. -/
def adjustAsClaimed (home_prob away_prob draw_prob : ℚ) : ℚ × ℚ :=
  let neutral_home := max (5/100) (home_prob - 7/100)
  let removed := home_prob - neutral_home
  let neutral_away := away_prob + removed * (1/2)
  let neutral_draw := draw_prob + removed * (1/2)
  let total_decisive := neutral_home + neutral_away
  if total_decisive ≤ 0 then (1/2, 1/2)
  else (neutral_home / total_decisive, neutral_away / total_decisive)

/-- The claim's closed form of the raw honours points: the k-th honour
of a level, in listed order, contributes `base * 0.6^(k-1)`; `seen`
accumulates the honours already listed, so the exponent is the number of
earlier honours of the same level. -/
def honoursSpecSum : List Honour → List Honour → ℚ
  | _, [] => 0
  | seen, h :: rest =>
    honourPoints h.level * (3/5) ^ (seen.countP (fun x => x.level == h.level)) +
      honoursSpecSum (seen ++ [h]) rest

/-- `experience_score` as the claim words it: the caliber duration is
`end_year (or the current year when ongoing) - start_year`, with no
floor at one year. -/
def experienceAsClaimed (m : Manager) : ℚ :=
  let years := total_years_managing m
  let roles : ℚ := m.career_history.length
  let years_pts := min 50 (years * (5/2))
  let roles_pts := min 25 (roles * (25/8))
  let caliber_raw := (m.career_history.map (fun e =>
    levelWeight e.level * min ((e.end_year.getD 2026 - e.start_year : ℤ) : ℚ) 5)).sum
  let caliber_pts := min 25 (caliber_raw * (3/2))
  min 100 (years_pts + roles_pts + caliber_pts)

/-- `experience_score` as amended: the caliber duration is floored at
one year, `max(1, end - start)`, exactly as the source computes it. -/
def experienceAmendedFormula (m : Manager) : ℚ :=
  let years := total_years_managing m
  let roles : ℚ := m.career_history.length
  let years_pts := min 50 (years * (5/2))
  let roles_pts := min 25 (roles * (25/8))
  let caliber_raw := (m.career_history.map (fun e =>
    levelWeight e.level * min (max 1 ((e.end_year.getD 2026 - e.start_year : ℤ) : ℚ)) 5)).sum
  let caliber_pts := min 25 (caliber_raw * (3/2))
  min 100 (years_pts + roles_pts + caliber_pts)

/-- The teams appearing in a list of pairwise observations (the keys of
`teams` / of the fitted dict in `fit_bradley_terry`). -/
def btTeamsList (bt : List (BTMatch ℚ)) : List String :=
  bt.flatMap (fun m => [m.team_a, m.team_b])

/-! ## Properties of the rounding model -/

theorem floor_le_rhe (x : ℚ) : ⌊x⌋ ≤ rhe x := by
  unfold rhe
  split_ifs <;> omega

theorem rhe_le_ceil (x : ℚ) : rhe x ≤ ⌈x⌉ := by
  have h1 : (⌊x⌋ : ℚ) ≤ x := Int.floor_le x
  have h2 : ⌈x⌉ ≤ ⌊x⌋ + 1 := Int.ceil_le_floor_add_one x
  have h3 : ⌊x⌋ ≤ ⌈x⌉ := Int.floor_le_ceil x
  unfold rhe
  split_ifs with hlt hgt heven
  · exact h3
  · -- x is strictly between its floor and the next integer, so ⌈x⌉ = ⌊x⌋ + 1
    have hx : (⌊x⌋ : ℚ) < x := by linarith
    have : ⌊x⌋ < ⌈x⌉ := by
      by_contra hc
      push_neg at hc
      have := le_antisymm hc h3
      have hxint : (⌈x⌉ : ℚ) ≥ x := Int.le_ceil x
      rw [this] at hxint
      linarith
    omega
  · exact h3
  · have hx : (⌊x⌋ : ℚ) < x := by linarith
    have : ⌊x⌋ < ⌈x⌉ := by
      by_contra hc
      push_neg at hc
      have := le_antisymm hc h3
      have hxint : (⌈x⌉ : ℚ) ≥ x := Int.le_ceil x
      rw [this] at hxint
      linarith
    omega

theorem rhe_mono {x y : ℚ} (h : x ≤ y) : rhe x ≤ rhe y := by
  have hf : ⌊x⌋ ≤ ⌊y⌋ := Int.floor_le_floor h
  rcases lt_or_eq_of_le hf with hlt | heq
  · calc rhe x ≤ ⌈x⌉ := rhe_le_ceil x
      _ ≤ ⌊x⌋ + 1 := Int.ceil_le_floor_add_one x
      _ ≤ ⌊y⌋ := by omega
      _ ≤ rhe y := floor_le_rhe y
  · have hfr : x - ⌊x⌋ ≤ y - ⌊y⌋ := by
      rw [← heq]; linarith
    unfold rhe
    rw [← heq]
    split_ifs <;> first | omega | linarith

theorem le_rhe_of_int_le {m : ℤ} {x : ℚ} (h : (m : ℚ) ≤ x) : m ≤ rhe x := by
  have : m ≤ ⌊x⌋ := Int.le_floor.mpr h
  have := floor_le_rhe x
  omega

theorem rhe_le_of_le_int {m : ℤ} {x : ℚ} (h : x ≤ (m : ℚ)) : rhe x ≤ m := by
  have : ⌈x⌉ ≤ m := Int.ceil_le.mpr h
  have := rhe_le_ceil x
  omega

theorem le_pyRound {n : ℕ} {m : ℤ} {x : ℚ} (h : (m : ℚ) / 10 ^ n ≤ x) :
    (m : ℚ) / 10 ^ n ≤ pyRound n x := by
  have hpow : (0 : ℚ) < 10 ^ n := by positivity
  have hm : (m : ℚ) ≤ x * 10 ^ n := by
    rw [div_le_iff₀ hpow] at h; exact h
  have := le_rhe_of_int_le hm
  unfold pyRound
  rw [div_le_div_iff_of_pos_right hpow]
  exact_mod_cast this

theorem pyRound_le {n : ℕ} {m : ℤ} {x : ℚ} (h : x ≤ (m : ℚ) / 10 ^ n) :
    pyRound n x ≤ (m : ℚ) / 10 ^ n := by
  have hpow : (0 : ℚ) < 10 ^ n := by positivity
  have hm : x * 10 ^ n ≤ (m : ℚ) := by
    rw [le_div_iff₀ hpow] at h; exact h
  have := rhe_le_of_le_int hm
  unfold pyRound
  rw [div_le_div_iff_of_pos_right hpow]
  exact_mod_cast this

theorem pyRound_mono {n : ℕ} {x y : ℚ} (h : x ≤ y) : pyRound n x ≤ pyRound n y := by
  have hpow : (0 : ℚ) < 10 ^ n := by positivity
  have : x * 10 ^ n ≤ y * 10 ^ n := by
    exact mul_le_mul_of_nonneg_right h (le_of_lt hpow)
  unfold pyRound
  rw [div_le_div_iff_of_pos_right hpow]
  exact_mod_cast rhe_mono this

theorem pyRound_nonneg {n : ℕ} {x : ℚ} (h : 0 ≤ x) : 0 ≤ pyRound n x := by
  have h0 : ((0 : ℤ) : ℚ) / 10 ^ n ≤ x := by simpa using h
  have := le_pyRound h0
  simpa using this

theorem pyRound_le_hundred {n : ℕ} {x : ℚ} (h : x ≤ 100) : pyRound n x ≤ 100 := by
  have h0 : x ≤ ((100 * 10 ^ n : ℤ) : ℚ) / 10 ^ n := by
    push_cast
    rw [mul_div_assoc]
    rw [div_self (by positivity : (10 : ℚ) ^ n ≠ 0)]
    simpa using h
  have := pyRound_le h0
  calc pyRound n x ≤ ((100 * 10 ^ n : ℤ) : ℚ) / 10 ^ n := this
    _ = 100 := by
      push_cast
      rw [mul_div_assoc, div_self (by positivity : (10 : ℚ) ^ n ≠ 0), mul_one]


/-! ## Bounds of the manager scores and team ratings -/

theorem composite_score_nonneg (texp : ℚ → ℚ) (a : ManagerAssessment) :
    0 ≤ composite_score texp a := by
  unfold composite_score
  exact pyRound_nonneg (le_max_left 0 _)

theorem composite_score_le_hundred (texp : ℚ → ℚ) (a : ManagerAssessment) :
    composite_score texp a ≤ 100 := by
  unfold composite_score
  exact pyRound_le_hundred (max_le (by norm_num) (min_le_left _ _))

theorem rating_multiplier_lb (texp : ℚ → ℚ) (a : ManagerAssessment) :
    85/100 ≤ rating_multiplier texp a := by
  unfold rating_multiplier
  have h0 := composite_score_nonneg texp a
  have h : ((850 : ℤ) : ℚ) / 10 ^ 3 ≤ 85/100 + composite_score texp a / 100 * (30/100) := by
    have h1 : 0 ≤ composite_score texp a / 100 * (30/100) := by positivity
    push_cast
    linarith
  have := le_pyRound h
  calc (85/100 : ℚ) = ((850 : ℤ) : ℚ) / 10 ^ 3 := by norm_num
    _ ≤ _ := this

theorem rating_multiplier_ub (texp : ℚ → ℚ) (a : ManagerAssessment) :
    rating_multiplier texp a ≤ 115/100 := by
  unfold rating_multiplier
  have h0 := composite_score_le_hundred texp a
  have h : 85/100 + composite_score texp a / 100 * (30/100) ≤ ((1150 : ℤ) : ℚ) / 10 ^ 3 := by
    push_cast
    nlinarith
  have := pyRound_le h
  calc pyRound 3 (85/100 + composite_score texp a / 100 * (30/100))
      ≤ ((1150 : ℤ) : ℚ) / 10 ^ 3 := this
    _ = 115/100 := by norm_num

theorem base_rating_nonneg (qlog1p : ℚ → ℚ) (team : Team) (all_teams : List Team)
    (power : Option ℚ) : 0 ≤ calculate_base_team_rating qlog1p team all_teams power := by
  unfold calculate_base_team_rating
  exact pyRound_nonneg (le_max_left 0 _)

theorem base_rating_le_hundred (qlog1p : ℚ → ℚ) (team : Team) (all_teams : List Team)
    (power : Option ℚ) : calculate_base_team_rating qlog1p team all_teams power ≤ 100 := by
  unfold calculate_base_team_rating
  exact pyRound_le_hundred (max_le (by norm_num) (min_le_left _ _))

theorem one_le_home_multiplier (name : String) (r : ℚ) (cfg : Option HomeAdvantageConfig)
    (h : ∀ c, cfg = some c → 0 ≤ c.base_advantage) :
    1 ≤ calculate_home_advantage_multiplier name r cfg := by
  cases cfg with
  | none => simp [calculate_home_advantage_multiplier]
  | some c =>
    have hc := h c rfl
    simp only [calculate_home_advantage_multiplier]
    split_ifs with h1 h2 h3 h4 h5 <;> nlinarith [hc]

/-- **C1** (amended): every composite manager score is in `[0, 100]`; every
base team rating is in `[0, 100]`; and — provided any supplied
home-advantage config has a non-negative `base_advantage` — every overall
rating is in `[0, 100]` as well. -/
theorem scores_in_range :
    (∀ (texp : ℚ → ℚ) (a : ManagerAssessment),
      0 ≤ composite_score texp a ∧ composite_score texp a ≤ 100) ∧
    (∀ (qlog1p : ℚ → ℚ) (team : Team) (all_teams : List Team) (power : Option ℚ),
      0 ≤ calculate_base_team_rating qlog1p team all_teams power ∧
        calculate_base_team_rating qlog1p team all_teams power ≤ 100) ∧
    (∀ (qlog1p texp : ℚ → ℚ) (team : Team) (all_teams : List Team)
      (assessment : Option ManagerAssessment) (home_config : Option HomeAdvantageConfig)
      (power : Option ℚ),
      (∀ c, home_config = some c → 0 ≤ c.base_advantage) →
      0 ≤ calculate_overall_rating qlog1p texp team all_teams assessment home_config power ∧
        calculate_overall_rating qlog1p texp team all_teams assessment home_config power ≤ 100) := by
  refine ⟨fun texp a => ⟨composite_score_nonneg texp a, composite_score_le_hundred texp a⟩,
    fun qlog1p team all_teams power =>
      ⟨base_rating_nonneg qlog1p team all_teams power,
       base_rating_le_hundred qlog1p team all_teams power⟩,
    fun qlog1p texp team all_teams assessment home_config power hcfg => ?_⟩
  have key : ∀ b1 : ℚ, 0 ≤ b1 →
      0 ≤ pyRound 1 (min 100 (b1 * calculate_home_advantage_multiplier team.name b1 home_config)) ∧
      pyRound 1 (min 100 (b1 * calculate_home_advantage_multiplier team.name b1 home_config)) ≤ 100 := by
    intro b1 hb1
    have hm := one_le_home_multiplier team.name b1 home_config hcfg
    exact ⟨pyRound_nonneg (le_min (by norm_num) (mul_nonneg hb1 (by linarith))),
      pyRound_le_hundred (min_le_left _ _)⟩
  have hbase := base_rating_nonneg qlog1p team all_teams power
  cases assessment with
  | none => exact key _ hbase
  | some a =>
    exact key _ (mul_nonneg hbase (le_trans (by norm_num) (rating_multiplier_lb texp a)))

/-- **C1** counterexample: with a (pathological but admissible)
home-advantage config carrying a negative `base_advantage`, the overall
rating of a host nation comes out negative — `calculate_overall_rating`
clamps only from above, so it is not always in `[0, 100]`. -/
theorem overall_rating_below_zero :
    calculate_overall_rating (fun x => x) (fun x => x)
      (Team.mk "Mexico" "MEX" "CONCACAF" 17 "" [] none) []
      none (some (HomeAdvantageConfig.mk (-100) true)) none < 0 := by
  norm_num [calculate_overall_rating, calculate_base_team_rating, valueScore, capsScore,
    balanceScore, squad_average_caps, total_market_value,
    calculate_home_advantage_multiplier, HOST_NATIONS, pyRound, rhe, Int.even_iff]

/-- Closed witness for the hypotheses of `scores_in_range`. -/
theorem scores_in_range_witness :
    0 ≤ calculate_overall_rating (fun x => x) (fun x => x)
        (Team.mk "Mexico" "MEX" "CONCACAF" 17 "" [] none) []
        none (some (HomeAdvantageConfig.mk (44/1000) true)) none ∧
      calculate_overall_rating (fun x => x) (fun x => x)
        (Team.mk "Mexico" "MEX" "CONCACAF" 17 "" [] none) []
        none (some (HomeAdvantageConfig.mk (44/1000) true)) none ≤ 100 :=
  scores_in_range.2.2 (fun x => x) (fun x => x)
    (Team.mk "Mexico" "MEX" "CONCACAF" 17 "" [] none) [] none
    (some (HomeAdvantageConfig.mk (44/1000) true)) none
    (by intro c hc; cases hc; norm_num)

/-- **C5**: the rating multiplier is `round(0.85 + (composite/100)*0.30, 3)`,
lies in `[0.85, 1.15]`, and is monotonically non-decreasing in the
composite score. -/
theorem rating_multiplier_props :
    (∀ (texp : ℚ → ℚ) (a : ManagerAssessment),
      rating_multiplier texp a =
        pyRound 3 (85/100 + composite_score texp a / 100 * (30/100))) ∧
    (∀ (texp : ℚ → ℚ) (a : ManagerAssessment),
      85/100 ≤ rating_multiplier texp a ∧ rating_multiplier texp a ≤ 115/100) ∧
    (∀ (texp : ℚ → ℚ) (a b : ManagerAssessment),
      composite_score texp a ≤ composite_score texp b →
      rating_multiplier texp a ≤ rating_multiplier texp b) := by
  refine ⟨fun texp a => rfl,
    fun texp a => ⟨rating_multiplier_lb texp a, rating_multiplier_ub texp a⟩,
    fun texp a b hab => ?_⟩
  unfold rating_multiplier
  apply pyRound_mono
  gcongr

/-- Closed witness for the hypothesis of `rating_multiplier_props`. -/
theorem rating_multiplier_props_witness :
    rating_multiplier (fun _ => 0) (ManagerAssessment.mk (Manager.mk "X" "M" "" 0 50 [] [] []) 50) ≤
      rating_multiplier (fun _ => 0) (ManagerAssessment.mk (Manager.mk "X" "M" "" 0 50 [] [] []) 50) :=
  rating_multiplier_props.2.2 (fun _ => 0)
    (ManagerAssessment.mk (Manager.mk "X" "M" "" 0 50 [] [] []) 50)
    (ManagerAssessment.mk (Manager.mk "X" "M" "" 0 50 [] [] []) 50)
    (le_refl _)

/-- **C9**: with no home-advantage config the multiplier is 1 for every
team and rating, and the overall rating reduces to
`round(min(100, base * manager_multiplier), 1)` (multiplier 1 when no
assessment is supplied). -/
theorem no_config_no_boost :
    (∀ (name : String) (rating : ℚ),
      calculate_home_advantage_multiplier name rating none = 1) ∧
    (∀ (qlog1p texp : ℚ → ℚ) (team : Team) (all_teams : List Team)
      (assessment : Option ManagerAssessment) (power : Option ℚ),
      calculate_overall_rating qlog1p texp team all_teams assessment none power =
        pyRound 1 (min 100 (calculate_base_team_rating qlog1p team all_teams power *
          (match assessment with
           | some a => rating_multiplier texp a
           | none => 1)))) := by
  refine ⟨fun name rating => rfl, fun qlog1p texp team all_teams assessment power => ?_⟩
  cases assessment with
  | none => simp [calculate_overall_rating, calculate_home_advantage_multiplier]
  | some a => simp [calculate_overall_rating, calculate_home_advantage_multiplier]

/-- **C7** counterexample: with an enabled config whose `base_advantage`
is 0, a host's multiplier at base rating 80 does **not** exceed its
multiplier at base rating 40 (both are exactly 1). -/
theorem home_advantage_no_strict_gain_at_zero :
    ¬ (calculate_home_advantage_multiplier "Mexico" 40 (some (HomeAdvantageConfig.mk 0 true)) <
       calculate_home_advantage_multiplier "Mexico" 80 (some (HomeAdvantageConfig.mk 0 true))) := by
  norm_num [calculate_home_advantage_multiplier, HOST_NATIONS]

/-- **C7** (amended): under an enabled config, non-hosts always get
multiplier 1; hosts get `1 + base_advantage * scale` with the
strength-dependent piecewise-linear `hostScale`; and — provided
`base_advantage` is positive — a host's multiplier at base rating 80
strictly exceeds its multiplier at base rating 40. -/
theorem home_advantage_multiplier_props :
    (∀ (name : String) (rating : ℚ) (c : HomeAdvantageConfig),
      c.enabled = true → name ∉ HOST_NATIONS →
      calculate_home_advantage_multiplier name rating (some c) = 1) ∧
    (∀ (name : String) (rating : ℚ) (c : HomeAdvantageConfig),
      c.enabled = true → name ∈ HOST_NATIONS →
      calculate_home_advantage_multiplier name rating (some c) =
        1 + c.base_advantage * hostScale rating) ∧
    (∀ (name : String) (c : HomeAdvantageConfig),
      c.enabled = true → name ∈ HOST_NATIONS → 0 < c.base_advantage →
      calculate_home_advantage_multiplier name 40 (some c) <
        calculate_home_advantage_multiplier name 80 (some c)) := by
  have hform : ∀ (name : String) (rating : ℚ) (c : HomeAdvantageConfig),
      c.enabled = true → name ∈ HOST_NATIONS →
      calculate_home_advantage_multiplier name rating (some c) =
        1 + c.base_advantage * hostScale rating := by
    intro name rating c hen hmem
    simp only [calculate_home_advantage_multiplier, hostScale, hen, hmem]
    norm_num
  refine ⟨?_, hform, ?_⟩
  · intro name rating c hen hmem
    simp only [calculate_home_advantage_multiplier, hen, hmem]
    norm_num
  · intro name c hen hmem hpos
    rw [hform name 40 c hen hmem, hform name 80 c hen hmem]
    have h40 : hostScale 40 = 4/10 := by norm_num [hostScale]
    have h80 : hostScale 80 = 1 := by norm_num [hostScale]
    rw [h40, h80]
    nlinarith

/-- Closed witness for the hypotheses of `home_advantage_multiplier_props`. -/
theorem home_advantage_multiplier_props_witness :
    calculate_home_advantage_multiplier "Mexico" 40 (some (HomeAdvantageConfig.mk (44/1000) true)) <
      calculate_home_advantage_multiplier "Mexico" 80 (some (HomeAdvantageConfig.mk (44/1000) true)) :=
  home_advantage_multiplier_props.2.2 "Mexico" (HomeAdvantageConfig.mk (44/1000) true)
    rfl (by simp [HOST_NATIONS]) (by norm_num)

/-! ## Home-advantage removal (C2) -/

/-- **C2** counterexample: at the valid probability triple
(home, draw, away) = (0.05, 0.90, 0.05) the 0.05 floor binds and no mass
is actually removed from the home-win probability, yet the code still
adds 0.035 to the away-win (and draw) probabilities; the claim's
description — reassigning half of the *removed* mass, here zero — gives
a different result. -/
theorem adjust_for_home_advantage_floor_counterexample :
    (5/100 : ℚ) + (90/100) + (5/100) = 1 ∧
    adjust_for_home_advantage (5/100) (5/100) (90/100) = (10/27, 17/27) ∧
    adjustAsClaimed (5/100) (5/100) (90/100) = (1/2, 1/2) ∧
    adjust_for_home_advantage (5/100) (5/100) (90/100) ≠
      adjustAsClaimed (5/100) (5/100) (90/100) := by
  refine ⟨by norm_num, ?_, ?_, ?_⟩ <;>
    norm_num [adjust_for_home_advantage, adjustAsClaimed, Prod.ext_iff]

/-- **C2** (amended): for every non-negative probability triple summing
to 1, `adjust_for_home_advantage` subtracts 0.07 from the home-win
probability (flooring at 0.05) and adds half of the fixed 0.07 to the
away-win probability (and to the unused draw) — regardless of how much
mass the floor actually let through — then returns the two decisive
probabilities normalized; the decisive mass is always positive, so the
0.5/0.5 default never fires on valid triples. -/
theorem adjust_for_home_advantage_amended (home away draw : ℚ)
    (h0 : 0 ≤ home) (h1 : 0 ≤ away) (h2 : 0 ≤ draw) (hsum : home + draw + away = 1) :
    0 < max (5/100) (home - 7/100) + (away + (7/100) * (1/2)) ∧
    adjust_for_home_advantage home away draw =
      (max (5/100) (home - 7/100) /
        (max (5/100) (home - 7/100) + (away + (7/100) * (1/2))),
       (away + (7/100) * (1/2)) /
        (max (5/100) (home - 7/100) + (away + (7/100) * (1/2)))) := by
  have hmax : (5/100 : ℚ) ≤ max (5/100) (home - 7/100) := le_max_left _ _
  have hpos : 0 < max (5/100) (home - 7/100) + (away + (7/100) * (1/2)) := by linarith
  refine ⟨hpos, ?_⟩
  simp only [adjust_for_home_advantage]
  rw [if_neg (by linarith)]

/-- Closed witness for the hypotheses of
`adjust_for_home_advantage_amended`. -/
theorem adjust_for_home_advantage_amended_witness :
    0 < max (5/100 : ℚ) (1/2 - 7/100) + (1/4 + (7/100) * (1/2)) ∧
    adjust_for_home_advantage (1/2) (1/4) (1/4) =
      (max (5/100) (1/2 - 7/100) /
        (max (5/100) (1/2 - 7/100) + (1/4 + (7/100) * (1/2))),
       (1/4 + (7/100) * (1/2)) /
        (max (5/100) (1/2 - 7/100) + (1/4 + (7/100) * (1/2)))) :=
  adjust_for_home_advantage_amended (1/2) (1/4) (1/4)
    (by norm_num) (by norm_num) (by norm_num) (by norm_num)

/-! ## Honours score (C6) -/

theorem honourPoints_pos (l : String) : 0 < honourPoints l := by
  unfold honourPoints
  split_ifs <;> norm_num

theorem honourPoints_le_25 (l : String) : honourPoints l ≤ 25 := by
  unfold honourPoints
  split_ifs <;> norm_num

/-- The source's counts-carrying loop computes the claim's double sum:
the exponent of the k-th honour of a level equals the number of earlier
honours of the same level. -/
theorem honoursRawAux_eq_spec :
    ∀ (hs seen : List Honour) (counts : String → ℕ),
      (∀ l, counts l = seen.countP (fun x => x.level == l)) →
      honoursRawAux hs counts = honoursSpecSum seen hs := by
  intro hs
  induction hs with
  | nil => intro seen counts _; rfl
  | cons h rest ih =>
    intro seen counts hc
    simp only [honoursRawAux, honoursSpecSum]
    congr 1
    · rw [hc h.level]
    · apply ih
      intro l
      rw [List.countP_append]
      simp only [List.countP_cons, List.countP_nil]
      rw [← hc l]
      by_cases hl : l = h.level
      · simp [hl]
      · have : ¬ (h.level == l) = true := by
          simp only [beq_iff_eq]
          exact fun hcon => hl hcon.symm
        simp [hl, this]

/-- **C6**: the honours score equals
`min(100, (100/60) * Σ base(level) * 0.6^(k-1))` over the honours in
listed order (k counted per level), is 0 with no honours, and a manager
with exactly two honours of one level scores strictly more than one with
a single such honour and strictly less than twice that manager's score. -/
theorem honours_score_props :
    (∀ m : Manager, honours_score m = min 100 (honoursSpecSum [] m.honours * (100/60))) ∧
    (∀ m : Manager, m.honours = [] → honours_score m = 0) ∧
    (∀ (m₁ m₂ : Manager) (h₁ h₂ : Honour), h₁.level = h₂.level →
      m₁.honours = [h₁] → m₂.honours = [h₁, h₂] →
      honours_score m₁ < honours_score m₂ ∧
        honours_score m₂ < 2 * honours_score m₁) := by
  have hform : ∀ m : Manager,
      honours_score m = min 100 (honoursSpecSum [] m.honours * (100/60)) := by
    intro m
    unfold honours_score
    by_cases hm : m.honours = []
    · rw [if_pos hm, hm]
      norm_num [honoursSpecSum]
    · rw [if_neg hm, honoursRawAux_eq_spec m.honours [] (fun _ => 0) (fun l => by simp)]
  refine ⟨hform, fun m hm => by simp [honours_score, hm], ?_⟩
  intro m₁ m₂ h₁ h₂ hlev hm1 hm2
  have hb0 := honourPoints_pos h₁.level
  have hb25 := honourPoints_le_25 h₁.level
  have hraw1 : honoursRawAux [h₁] (fun _ => 0) = honourPoints h₁.level := by
    simp [honoursRawAux]
  have hraw2 : honoursRawAux [h₁, h₂] (fun _ => 0) = honourPoints h₁.level * (8/5) := by
    simp only [honoursRawAux, pow_zero, mul_one, add_zero]
    rw [if_pos hlev.symm, ← hlev]
    ring
  have e1 : honours_score m₁ = honourPoints h₁.level * (100/60) := by
    unfold honours_score
    rw [hm1, if_neg (by simp), hraw1, min_eq_right (by nlinarith)]
  have e2 : honours_score m₂ = honourPoints h₁.level * (8/5) * (100/60) := by
    unfold honours_score
    rw [hm2, if_neg (by simp), hraw2, min_eq_right (by nlinarith)]
  rw [e1, e2]
  constructor <;> nlinarith

/-- Closed witness for the hypotheses of `honours_score_props`. -/
theorem honours_score_props_witness :
    honours_score (Manager.mk "A" "P" "" 2 30
        [] [Honour.mk "WC" 2022 "world_cup" "A", Honour.mk "WC" 2018 "world_cup" "A"] []) <
      2 * honours_score (Manager.mk "B" "Q" "" 2 30
        [] [Honour.mk "WC" 2022 "world_cup" "A"] []) :=
  (honours_score_props.2.2
    (Manager.mk "B" "Q" "" 2 30 [] [Honour.mk "WC" 2022 "world_cup" "A"] [])
    (Manager.mk "A" "P" "" 2 30
      [] [Honour.mk "WC" 2022 "world_cup" "A", Honour.mk "WC" 2018 "world_cup" "A"] [])
    (Honour.mk "WC" 2022 "world_cup" "A") (Honour.mk "WC" 2018 "world_cup" "A")
    rfl rfl rfl).2

/-! ## Experience score (C8) -/

/-- **C8** counterexample: for a single one-season entry
(`start_year = end_year`) the source floors the caliber duration at one
year (`max(1, end - start)`), while the claim's formula
(`end - start`, capped at 5) gives it duration zero — the two disagree. -/
theorem experience_score_duration_counterexample :
    experience_score (Manager.mk "X" "M" "" 0 50
        [CareerEntry.mk "C" "Head Coach" 2020 (some 2020) "club_mid"] [] []) = 43/8 ∧
    experienceAsClaimed (Manager.mk "X" "M" "" 0 50
        [CareerEntry.mk "C" "Head Coach" 2020 (some 2020) "club_mid"] [] []) = 25/8 ∧
    experience_score (Manager.mk "X" "M" "" 0 50
        [CareerEntry.mk "C" "Head Coach" 2020 (some 2020) "club_mid"] [] []) ≠
      experienceAsClaimed (Manager.mk "X" "M" "" 0 50
        [CareerEntry.mk "C" "Head Coach" 2020 (some 2020) "club_mid"] [] []) := by
  have hlw : levelWeight "club_mid" = 3/2 := by simp [levelWeight]
  refine ⟨?_, ?_, ?_⟩ <;>
    norm_num [experience_score, experienceAsClaimed, total_years_managing, orYear, hlw]

/-- **C8** (amended): the experience score equals
`min(100, min(50, years*2.5) + min(25, roles*3.125) + min(25, 1.5 * Σ
level_weight * min(max(1, duration), 5)))` with the caliber duration
floored at one year; stated for managers without the pathological
`end_year = 0` entry (Python's `or` treats 0 as missing). -/
theorem experience_score_amended (m : Manager)
    (h : ∀ e ∈ m.career_history, e.end_year ≠ some 0) :
    experience_score m = experienceAmendedFormula m := by
  have hmap : m.career_history.map (fun e =>
        levelWeight e.level * min (max 1 ((orYear e.end_year - e.start_year : ℤ) : ℚ)) 5)
      = m.career_history.map (fun e =>
        levelWeight e.level * min (max 1 ((e.end_year.getD 2026 - e.start_year : ℤ) : ℚ)) 5) := by
    apply List.map_congr_left
    intro e he
    have hne : e.end_year ≠ some 0 := h e he
    cases hy : e.end_year with
    | none => rfl
    | some v =>
      have hv : v ≠ 0 := by
        intro hcon
        exact hne (by rw [hy, hcon])
      simp [orYear, hv]
  simp only [experience_score, experienceAmendedFormula]
  rw [hmap]

/-- Closed witness for the hypothesis of `experience_score_amended`. -/
theorem experience_score_amended_witness :
    experience_score (Manager.mk "X" "M" "" 0 50
        [CareerEntry.mk "C" "Head Coach" 2015 (some 2021) "club_top"] [] []) =
      experienceAmendedFormula (Manager.mk "X" "M" "" 0 50
        [CareerEntry.mk "C" "Head Coach" 2015 (some 2021) "club_top"] [] []) :=
  experience_score_amended _ (by
    intro e he
    simp only [List.mem_singleton] at he
    subst he
    simp)

/-! ## Bradley–Terry invariants (C3, C10) -/

section BradleyTerryProofs

variable {F : Type} [LinearOrderedField F]

theorem btNum_nonneg {m : BTMatch F} (t : String)
    (hp0 : 0 ≤ m.prob_a) (hp1 : m.prob_a ≤ 1) (hw : 0 ≤ m.weight) :
    0 ≤ btNum t m := by
  unfold btNum
  have h1 : 0 ≤ m.prob_a * m.weight := mul_nonneg hp0 hw
  have h2 : 0 ≤ (1 - m.prob_a) * m.weight := mul_nonneg (by linarith) hw
  dsimp only
  split_ifs <;> simp <;> linarith

theorem btDen_nonneg {conn : Finset String} {lam : String → F}
    (hl : ∀ s ∈ conn, 0 ≤ lam s) {m : BTMatch F} (t : String)
    (ha : m.team_a ∈ conn) (hb : m.team_b ∈ conn) (ht : t ∈ conn) (hw : 0 ≤ m.weight) :
    0 ≤ btDen lam t m := by
  unfold btDen
  have h1 : 0 ≤ m.weight * lam m.team_b / (lam t + lam m.team_b) :=
    div_nonneg (mul_nonneg hw (hl _ hb)) (add_nonneg (hl _ ht) (hl _ hb))
  have h2 : 0 ≤ m.weight * lam m.team_a / (lam t + lam m.team_a) :=
    div_nonneg (mul_nonneg hw (hl _ ha)) (add_nonneg (hl _ ht) (hl _ ha))
  dsimp only
  split_ifs <;> simp <;> linarith

theorem mem_btFilter {conn : Finset String} {ms : List (BTMatch F)} {m : BTMatch F}
    (hm : m ∈ btFilter conn ms) :
    m ∈ ms ∧ m.team_a ∈ conn ∧ m.team_b ∈ conn := by
  have := List.mem_filter.mp hm
  exact ⟨this.1, by simpa using this.2⟩

/-- Every damped update keeps a connected team's strength positive: the
numerator and denominator both contain the positive prior term
`prior_strength * 0.5`, so the raw ratio is positive, and the damped
blend of two positive values is positive. -/
theorem btSweep_pos {prior damping : F} {ms : List (BTMatch F)} {conn : Finset String}
    {lam : String → F}
    (hwf : wfMatches ms) (hp : 0 < prior) (hd0 : 0 ≤ damping) (hd1 : damping ≤ 1)
    (hlam : ∀ s ∈ conn, 0 < lam s) {t : String} (ht : t ∈ conn) :
    0 < btSweep prior damping ms conn lam t := by
  have hnums : 0 ≤ ((btFilter conn ms).map (fun m => btNum t m)).sum := by
    apply List.sum_nonneg
    intro x hx
    obtain ⟨m, hm, rfl⟩ := List.mem_map.mp hx
    obtain ⟨hms, _, _⟩ := mem_btFilter hm
    obtain ⟨hp0, hp1, hw⟩ := hwf m hms
    exact btNum_nonneg t hp0 hp1 hw
  have hdens : 0 ≤ ((btFilter conn ms).map (fun m => btDen lam t m)).sum := by
    apply List.sum_nonneg
    intro x hx
    obtain ⟨m, hm, rfl⟩ := List.mem_map.mp hx
    obtain ⟨hms, ha, hb⟩ := mem_btFilter hm
    obtain ⟨_, _, hw⟩ := hwf m hms
    exact btDen_nonneg (fun s hs => le_of_lt (hlam s hs)) t ha hb ht hw
  have hnum : 0 < prior * (1/2) + ((btFilter conn ms).map (fun m => btNum t m)).sum := by
    linarith
  have hden : 0 < prior * (1/2) + ((btFilter conn ms).map (fun m => btDen lam t m)).sum := by
    linarith
  unfold btSweep
  rw [if_pos hden]
  have hraw := div_pos hnum hden
  have hlt := hlam t ht
  rcases eq_or_lt_of_le hd0 with h | h
  · rw [← h]
    simpa using hlt
  · have hone : 0 ≤ (1 - damping) * lam t := mul_nonneg (by linarith) (le_of_lt hlt)
    nlinarith

/-- Positivity is preserved through every reachable state of the fit:
the all-ones initialization is positive, and each iteration divides the
positive swept values by the positive normalization factor. -/
theorem btReaches_pos {prior damping : F} {ms : List (BTMatch F)} {conn : Finset String}
    (hwf : wfMatches ms) (hp : 0 < prior) (hd0 : 0 ≤ damping) (hd1 : damping ≤ 1)
    {lam : String → F} (hreach : btReaches prior damping ms conn lam) :
    ∀ t ∈ conn, 0 < lam t := by
  induction hreach with
  | init => intro t _; norm_num
  | step h1 h2 ih =>
    intro t ht
    obtain ⟨G, ⟨hG, _⟩, rfl⟩ := h2
    exact div_pos (btSweep_pos hwf hp hd0 hd1 ih ht) hG

/-- **C10**: every value of the dict returned by `fit_bradley_terry`
is strictly positive — connected teams keep `λ > 0` through every damped
update (both sides of the ratio contain the positive prior term
`prior_strength * 0.5`) and through every normalization (division by the
positive geometric mean); teams outside the component get the positive
default `0.1`.  The log transform of `_lambda_to_rating` is therefore
always applied to positive values. -/
theorem fit_bradley_terry_lambda_pos {F : Type} [LinearOrderedField F]
    {prior damping : F} {ms : List (BTMatch F)} {conn teams : Finset String}
    {lam : String → F}
    (hwf : wfMatches ms) (hp : 0 < prior) (hd0 : 0 ≤ damping) (hd1 : damping ≤ 1)
    (hreach : btReaches prior damping ms conn lam) :
    ∀ t v, btResult conn teams lam t = some v → 0 < v := by
  intro t v hres
  unfold btResult at hres
  by_cases ht : t ∈ conn
  · rw [if_pos ht] at hres
    have := Option.some.inj hres
    rw [← this]
    exact btReaches_pos hwf hp hd0 hd1 hreach t ht
  · rw [if_neg ht] at hres
    by_cases ht2 : t ∈ teams
    · rw [if_pos ht2] at hres
      have := Option.some.inj hres
      rw [← this]
      norm_num
    · rw [if_neg ht2] at hres
      cases hres

/-- Closed witness for the hypotheses of `fit_bradley_terry_lambda_pos`. -/
theorem fit_bradley_terry_lambda_pos_witness : (0 : ℚ) < 1/10 :=
  @fit_bradley_terry_lambda_pos ℚ _ 2 (1/2) [] {"A"} {"A", "B"} (fun _ => 1)
    (fun m hm => absurd hm (List.not_mem_nil m))
    (by norm_num) (by norm_num) (by norm_num)
    btReaches.init "B" (1/10) (by simp [btResult])

/-- **C3**: a normalization pass divides the swept strengths by their
geometric mean `G` (characterized by `G ^ n = ∏ max(λ, 1e-10)`, `G > 0`);
as long as the swept strengths are at or above the `1e-10` log-clamp
(always the case in practice — in particular after the first sweep,
`btSweep_init_ge_clamp`), the normalized strengths have product exactly 1
over the connected teams, which for positive values is the same as
having geometric mean exactly 1: any positive `g` with
`g ^ n = ∏ λ` must equal 1. -/
theorem bt_normalization_geometric_mean_one {F : Type} [LinearOrderedField F]
    {prior damping : F} {ms : List (BTMatch F)} {conn : Finset String}
    {lam : String → F} {G : F}
    (hconn : conn.Nonempty)
    (hge : ∀ t ∈ conn, (1/10^10 : F) ≤ btSweep prior damping ms conn lam t)
    (hG : isGeoMean conn (btSweep prior damping ms conn lam) G) :
    (∏ t in conn, btNormalize G (btSweep prior damping ms conn lam) t) = 1 ∧
    ∀ g : F, 0 < g →
      g ^ conn.card = ∏ t in conn, btNormalize G (btSweep prior damping ms conn lam) t →
      g = 1 := by
  obtain ⟨hGpos, hGpow⟩ := hG
  have hmax : (∏ t in conn, max (btSweep prior damping ms conn lam t) (1/10^10)) =
      ∏ t in conn, btSweep prior damping ms conn lam t :=
    Finset.prod_congr rfl (fun t ht => max_eq_left (hge t ht))
  have hne : (∏ t in conn, btSweep prior damping ms conn lam t) ≠ 0 := by
    rw [← hmax, ← hGpow]
    exact ne_of_gt (pow_pos hGpos _)
  have hprod : (∏ t in conn, btNormalize G (btSweep prior damping ms conn lam) t) = 1 := by
    unfold btNormalize
    rw [Finset.prod_div_distrib, Finset.prod_const, hGpow, hmax, div_self hne]
  refine ⟨hprod, fun g hg hgpow => ?_⟩
  rw [hprod] at hgpow
  obtain ⟨x, hx⟩ := hconn
  have hcard : conn.card ≠ 0 := Finset.card_ne_zero_of_mem hx
  rcases lt_trichotomy g 1 with hlt | heq | hgt
  · exact absurd (hgpow ▸ pow_lt_one₀ (le_of_lt hg) hlt hcard) (lt_irrefl 1)
  · exact heq
  · exact absurd (hgpow ▸ one_lt_pow₀ hgt hcard) (lt_irrefl 1)

/-- With the source's default `prior_strength = 2` and `damping = 0.5`,
the very first sweep (from the all-ones initialization) produces values
at least `1/2`, so the `1e-10` log-clamp is inactive on the first
normalization pass unconditionally. -/
theorem btSweep_init_ge_clamp {ms : List (BTMatch F)} {conn : Finset String}
    (hwf : wfMatches ms) :
    ∀ t ∈ conn, (1/10^10 : F) ≤ btSweep 2 (1/2) ms conn (fun _ => 1) t := by
  intro t ht
  have hnums : 0 ≤ ((btFilter conn ms).map (fun m => btNum t m)).sum := by
    apply List.sum_nonneg
    intro x hx
    obtain ⟨m, hm, rfl⟩ := List.mem_map.mp hx
    obtain ⟨hms, _, _⟩ := mem_btFilter hm
    obtain ⟨hp0, hp1, hw⟩ := hwf m hms
    exact btNum_nonneg t hp0 hp1 hw
  have hdens : 0 ≤ ((btFilter conn ms).map (fun m => btDen (fun _ => 1) t m)).sum := by
    apply List.sum_nonneg
    intro x hx
    obtain ⟨m, hm, rfl⟩ := List.mem_map.mp hx
    obtain ⟨hms, ha, hb⟩ := mem_btFilter hm
    obtain ⟨_, _, hw⟩ := hwf m hms
    exact btDen_nonneg (fun s _ => by norm_num) t ha hb ht hw
  have hnum : 0 < (2 : F) * (1/2) + ((btFilter conn ms).map (fun m => btNum t m)).sum := by
    linarith
  have hden : 0 < (2 : F) * (1/2) + ((btFilter conn ms).map (fun m => btDen (fun _ => 1) t m)).sum := by
    linarith
  unfold btSweep
  rw [if_pos hden]
  have hraw := div_pos hnum hden
  have heps : (1/10^10 : F) ≤ 1/2 := by norm_num
  nlinarith

end BradleyTerryProofs

/-- Closed witness for the hypotheses of
`bt_normalization_geometric_mean_one`. -/
theorem bt_normalization_geometric_mean_one_witness :
    (∏ t in ({"A"} : Finset String),
      btNormalize (1 : ℚ) (btSweep 2 (1/2) [] {"A"} (fun _ => 1)) t) = 1 :=
  (bt_normalization_geometric_mean_one
    (Finset.singleton_nonempty "A")
    (btSweep_init_ge_clamp (fun m hm => absurd hm (List.not_mem_nil m)))
    ⟨by norm_num, by
      rw [Finset.card_singleton, Finset.prod_singleton]
      norm_num [btSweep, btFilter, btDen, btNum]⟩).1

/-! ## Default power rankings for unobserved teams (C4) -/

theorem lookup_append_of_not_mem_left {β : Type} (l1 l2 : List (String × β)) (t : String)
    (h : ∀ p ∈ l1, p.1 ≠ t) : (l1 ++ l2).lookup t = l2.lookup t := by
  induction l1 with
  | nil => rfl
  | cons p l1 ih =>
    have hp : p.1 ≠ t := h p (List.mem_cons_self p l1)
    have hne : (t == p.1) = false := by
      simp only [beq_eq_false_iff_ne]
      exact fun hc => hp hc.symm
    simp only [List.cons_append, List.lookup, hne]
    exact ih (fun q hq => h q (List.mem_cons_of_mem p hq))

theorem lookup_map_pair_self {β : Type} (l : List String) (f : String → β) (t : String)
    (ht : t ∈ l) : (l.map (fun s => (s, f s))).lookup t = some (f t) := by
  induction l with
  | nil => cases ht
  | cons s l ih =>
    by_cases hs : t = s
    · subst hs
      simp [List.lookup]
    · have hne : (t == s) = false := by
        simp only [beq_eq_false_iff_ne]
        exact hs
      have hmem : t ∈ l := by
        rcases List.mem_cons.mp ht with h | h
        · exact absurd h hs
        · exact h
      simp only [List.map_cons, List.lookup, hne]
      exact ih hmem

/-- `_lambda_to_rating` preserves the key set of the fitted dict. -/
theorem lambdaToRating_keys (qlog : ℚ → ℚ) (lam : List (String × ℚ)) :
    (lambdaToRating qlog lam).map Prod.fst = lam.map Prod.fst := by
  cases lam with
  | nil => rfl
  | cons p ps =>
    simp only [lambdaToRating]
    split_ifs <;> simp [List.map_map, Function.comp]

/-- **C4** counterexample: when no valid match remains (here: no match
at all), `compute_power_rankings` returns the empty mapping even when
teams are requested — the requested team is absent, with no default-25
entry.  (The early-return branch fires before the fit stage is ever
consulted, so the result is the same for every `fit` function; the
constant-empty instantiation below is therefore fully representative.) -/
theorem compute_power_rankings_no_valid_matches :
    compute_power_rankings (fun _ => []) (fun x => x) [] ["Brazil"] = [] ∧
    (compute_power_rankings (fun _ => []) (fun x => x) [] ["Brazil"]).lookup "Brazil" = none := by
  constructor <;> rfl

/-- **C4** (amended): *provided at least one valid match remains*, each
requested team that never appears in the valid match data is present in
the returned mapping with the default `PowerRanking` (rating 25,
`lambda_param` 0, `matches_used` 0); with no valid matches the function
instead returns the empty mapping.  Stated for every `fit` stage whose
result keys come from the match data — true of the Bradley–Terry fit,
whose dict keys are the teams of its input matches. -/
theorem compute_power_rankings_default_amended
    (fit : List (BTMatch ℚ) → List (String × ℚ)) (qlog : ℚ → ℚ)
    (match_odds_list : List MatchOdds) (wc_team_names : List String) (t : String)
    (hkeys : ∀ s, s ∈ (fit (validMatches match_odds_list)).map Prod.fst →
      s ∈ btTeamsList (validMatches match_odds_list))
    (hne : validMatches match_odds_list ≠ [])
    (ht : t ∈ wc_team_names)
    (habs : t ∉ btTeamsList (validMatches match_odds_list)) :
    (compute_power_rankings fit qlog match_odds_list wc_team_names).lookup t =
      some (PowerRanking.mk t 25 0 0) := by
  simp only [compute_power_rankings]
  rw [if_neg hne]
  have hbase : ∀ p ∈ (lambdaToRating qlog (fit (validMatches match_odds_list))).filterMap
      (fun q => if wc_team_names ≠ [] ∧ q.1 ∉ wc_team_names then none
        else some (q.1, PowerRanking.mk q.1 q.2
          (((fit (validMatches match_odds_list)).lookup q.1).getD 0)
          (teamMatchCount (validMatches match_odds_list) q.1))), p.1 ≠ t := by
    intro p hp
    obtain ⟨q, hq, hgq⟩ := List.mem_filterMap.mp hp
    have hp1 : p.1 = q.1 := by
      by_cases hc : wc_team_names ≠ [] ∧ q.1 ∉ wc_team_names
      · rw [if_pos hc] at hgq
        cases hgq
      · rw [if_neg hc] at hgq
        have := Option.some.inj hgq
        rw [← this]
    have hqkey : q.1 ∈ (lambdaToRating qlog (fit (validMatches match_odds_list))).map Prod.fst :=
      List.mem_map_of_mem Prod.fst hq
    rw [lambdaToRating_keys] at hqkey
    have : q.1 ∈ btTeamsList (validMatches match_odds_list) := hkeys q.1 hqkey
    rw [hp1]
    intro hcon
    rw [hcon] at this
    exact habs this
  have hwc : wc_team_names ≠ [] := List.ne_nil_of_mem ht
  rw [if_pos hwc]
  rw [lookup_append_of_not_mem_left _ _ _ hbase]
  have htf : t ∈ wc_team_names.filter (fun s =>
      decide (s ∉ ((lambdaToRating qlog (fit (validMatches match_odds_list))).filterMap
        (fun q => if wc_team_names ≠ [] ∧ q.1 ∉ wc_team_names then none
          else some (q.1, PowerRanking.mk q.1 q.2
            (((fit (validMatches match_odds_list)).lookup q.1).getD 0)
            (teamMatchCount (validMatches match_odds_list) q.1)))).map Prod.fst)) := by
    rw [List.mem_filter]
    refine ⟨ht, ?_⟩
    rw [decide_eq_true_iff]
    intro hmem
    obtain ⟨p, hp, hpt⟩ := List.mem_map.mp hmem
    exact hbase p hp hpt
  exact lookup_map_pair_self _ _ t htf

/-- A match whose three odds all exceed 1 survives the sanity filter, so
the valid-match list is nonempty. -/
theorem validMatches_cons_ne_nil {mo : MatchOdds} {rest : List MatchOdds}
    (hh : 1 < mo.home_odds) (hd : 1 < mo.draw_odds) (ha : 1 < mo.away_odds) :
    validMatches (mo :: rest) ≠ [] := by
  unfold validMatches
  rw [List.filterMap_cons]
  have hc : ¬ (mo.home_odds ≤ 1 ∨ mo.draw_odds ≤ 1 ∨ mo.away_odds ≤ 1) := by
    push_neg
    exact ⟨hh, hd, ha⟩
  rw [if_neg hc]
  simp

/-- Every team of the valid-match list is a home or away team of some
input observation. -/
theorem btTeamsList_validMatches (odds : List MatchOdds) :
    ∀ s ∈ btTeamsList (validMatches odds),
      ∃ mo ∈ odds, s = mo.home_team ∨ s = mo.away_team := by
  intro s hs
  unfold btTeamsList at hs
  obtain ⟨m, hm, hsm⟩ := List.mem_flatMap.mp hs
  unfold validMatches at hm
  obtain ⟨mo, hmo, hfmo⟩ := List.mem_filterMap.mp hm
  by_cases hc : mo.home_odds ≤ 1 ∨ mo.draw_odds ≤ 1 ∨ mo.away_odds ≤ 1
  · rw [if_pos hc] at hfmo
    cases hfmo
  · rw [if_neg hc] at hfmo
    have hmeq := Option.some.inj hfmo
    refine ⟨mo, hmo, ?_⟩
    have hsm2 : s = m.team_a ∨ s = m.team_b := by
      simpa using hsm
    rw [← hmeq] at hsm2
    simpa using hsm2

/-- Closed witness for the hypotheses of
`compute_power_rankings_default_amended`. -/
theorem compute_power_rankings_default_amended_witness :
    (compute_power_rankings (fun _ => []) (fun x => x)
        [MatchOdds.mk "A" "B" "" "friendly" 2 3 4 none none] ["Brazil"]).lookup "Brazil" =
      some (PowerRanking.mk "Brazil" 25 0 0) :=
  compute_power_rankings_default_amended (fun _ => []) (fun x => x)
    [MatchOdds.mk "A" "B" "" "friendly" 2 3 4 none none] ["Brazil"] "Brazil"
    (by simp)
    (validMatches_cons_ne_nil (by norm_num) (by norm_num) (by norm_num))
    (List.mem_singleton.mpr rfl)
    (by
      intro hmem
      obtain ⟨mo, hmo, hor⟩ :=
        btTeamsList_validMatches [MatchOdds.mk "A" "B" "" "friendly" 2 3 4 none none]
          "Brazil" hmem
      rw [List.mem_singleton] at hmo
      subst hmo
      rcases hor with h | h <;> simp at h)

end WorldCup
